import Mathlib

/-!
Shallow embedding of the data-reconciliation pipeline of
`trader-insights-dashboard` (`src/app.py`).

The pipeline (lines 11-36 of `app.py`) loads a trade log and a
fear/greed sentiment index, normalizes both date columns with
`pd.to_datetime(..., errors='coerce')` (failures become the null
sentinel `NaT`), inner-merges on the normalized `Date_Clean` column,
and derives a `Win` column with `lambda x: 1 if x > 0 else 0`.
The dashboard then computes `df['Closed PnL'].sum()` (line 89),
`len(df)` (line 95), `df['Win'].mean()` (line 101), per-classification
groupings (lines 114, 131) and a cumulative-PnL line over
`df.sort_values('Date_Clean')` with `cumsum()` (lines 152-155).

Modelling decisions, each matching documented pandas semantics:
* A possibly-missing cell (`NaN` / `NaT`) is `Option _` with `none`
  as the null. Decimal `Closed PnL` values are modelled exactly as
  rationals.
* `pd.merge(..., on='Date_Clean', how='inner')` preserves the order
  of the left (trade) keys and, crucially, treats null keys as equal
  to each other: pandas's object hash table compares the `NaT`
  singleton equal to itself, so a `NaT` trade key matches a `NaT`
  sentiment key. The merge key equality is therefore plain equality
  on `Option CalDate`, under which `none = none` holds.
* `Series.sum()` and `Series.cumsum()` default to `skipna=True`:
  `sum` adds the present values only; `cumsum` leaves `none` at the
  missing positions and keeps accumulating the present values.
* `Series.mean()` over the never-missing `Win` column is the sum of
  wins divided by the row count, and is `NaN` (`none`) on an empty
  column.
* `sort_values('Date_Clean')` orders ascending with nulls last
  (`na_position='last'`). Its default numpy `quicksort` is not
  stable, so the chosen ordering is abstracted by the predicate
  `SortedByDate`: any permutation of the rows whose date keys are
  ascending with nulls last.
* `pd.to_datetime(col, format='%d-%m-%Y %H:%M', errors='coerce')`
  is modelled by a strict day-month-year hour:minute parser; the
  flexible parser used for the sentiment `date` column is modelled
  on the documented `YYYY-MM-DD` input format. Both return `none`
  exactly when parsing fails, as `errors='coerce'` yields `NaT`.
  Years are restricted to the interior 1678..2261 of the pandas
  `Timestamp` range (out-of-bounds timestamps also coerce to `NaT`).
-/

namespace TraderApp

/-- A calendar date (no time-of-day component), the join key produced by
`.dt.date` in `app.py` lines 19 and 22. -/
structure CalDate where
  year : Nat
  month : Nat
  day : Nat
deriving DecidableEq, Repr

/-- Lexicographic order on calendar dates, as `datetime.date` comparison. -/
def CalDate.leb (a b : CalDate) : Bool :=
  if a.year ≠ b.year then a.year < b.year
  else if a.month ≠ b.month then a.month < b.month
  else a.day ≤ b.day

/-- Gregorian leap-year test. -/
def isLeapYear (y : Nat) : Bool :=
  (y % 4 = 0 && y % 100 ≠ 0) || y % 400 = 0

/-- Number of days of month `m` of year `y`. -/
def daysInMonth (y m : Nat) : Nat :=
  if m = 2 then (if isLeapYear y then 29 else 28)
  else if m = 4 || m = 6 || m = 9 || m = 11 then 30
  else 31

/-- Calendar validation: `pd.to_datetime` rejects impossible dates such as
`31-02-2021`, and coerces out-of-`Timestamp`-range years to `NaT`. -/
def mkValidDate (y m d : Nat) : Option CalDate :=
  if 1678 ≤ y && y ≤ 2261 && 1 ≤ m && m ≤ 12 && 1 ≤ d && d ≤ daysInMonth y m then
    some ⟨y, m, d⟩
  else
    none

/-- Split a character list on a separator character (the separators of the
`strptime`-style patterns below). -/
def splitOnChar (c : Char) : List Char → List (List Char)
  | [] => [[]]
  | x :: xs =>
    if x = c then [] :: splitOnChar c xs
    else
      match splitOnChar c xs with
      | [] => [[x]]
      | g :: gs => (x :: g) :: gs

/-- Decimal value of a digit list. -/
def digitsToNat (cs : List Char) : Nat :=
  cs.foldl (fun acc c => acc * 10 + (c.toNat - 48)) 0

/-- A numeric field of a date string: all digits, of length between
`lo` and `hi`. -/
def numField (lo hi : Nat) (cs : List Char) : Option Nat :=
  if lo ≤ cs.length && cs.length ≤ hi && cs.all Char.isDigit then
    some (digitsToNat cs)
  else
    none

/-- Parser for the trade-log timestamp, `app.py` line 19:
`pd.to_datetime(df_hist['Timestamp IST'], format='%d-%m-%Y %H:%M',
errors='coerce').dt.date`. The strict `%d-%m-%Y %H:%M` pattern is
day-month-year space hour:minute; any failure yields the null date. -/
def parseTradeTimestamp (s : String) : Option CalDate :=
  match splitOnChar ' ' s.toList with
  | [datePart, timePart] =>
    match splitOnChar '-' datePart, splitOnChar ':' timePart with
    | [ds, ms, ys], [hs, mins] =>
      match numField 1 2 ds, numField 1 2 ms, numField 1 4 ys,
            numField 1 2 hs, numField 1 2 mins with
      | some d, some m, some y, some hh, some mm =>
        if hh ≤ 23 && mm ≤ 59 then mkValidDate y m d else none
      | _, _, _, _, _ => none
    | _, _ => none
  | _ => none

/-- Parser for the sentiment `date` column, `app.py` line 22:
`pd.to_datetime(df_fg['date'], errors='coerce').dt.date`. The flexible
parser is modelled on the documented `YYYY-MM-DD` input format; any
failure yields the null date. -/
def parseSentDate (s : String) : Option CalDate :=
  match splitOnChar '-' s.toList with
  | [ys, ms, ds] =>
    match numField 4 4 ys, numField 1 2 ms, numField 1 2 ds with
    | some y, some m, some d => mkValidDate y m d
    | _, _, _ => none
  | _ => none

/-- A raw trade-log row (`historical_data_compressed.csv`): the columns the
pipeline reads. `closedPnl = none` models a missing (`NaN`) cell. -/
structure RawTrade where
  timestampIST : String
  side : String
  coin : String
  closedPnl : Option ℚ
deriving DecidableEq, Repr

/-- A raw sentiment row (`fear_greed_index.csv`). -/
structure RawSent where
  date : String
  classification : String
deriving DecidableEq, Repr

/-- A trade row after date normalization (`Date_Clean` added, line 19). -/
structure TradeN where
  timestampIST : String
  side : String
  coin : String
  closedPnl : Option ℚ
  dateClean : Option CalDate
deriving DecidableEq, Repr

/-- A sentiment row after date normalization (`Date_Clean` added, line 22). -/
structure SentN where
  date : String
  classification : String
  dateClean : Option CalDate
deriving DecidableEq, Repr

/-- A row of the merged dataframe `df` (lines 26-29): all trade columns, the
sentiment columns, the shared `Date_Clean` key, and the derived `Win`. -/
structure Row where
  timestampIST : String
  side : String
  coin : String
  closedPnl : Option ℚ
  dateClean : Option CalDate
  dateRaw : String
  classification : String
  win : Nat
deriving DecidableEq, Repr

/-- Date normalization of a trade row (line 19). -/
def normTrade (t : RawTrade) : TradeN :=
  ⟨t.timestampIST, t.side, t.coin, t.closedPnl, parseTradeTimestamp t.timestampIST⟩

/-- Date normalization of a sentiment row (line 22). -/
def normSent (s : RawSent) : SentN :=
  ⟨s.date, s.classification, parseSentDate s.date⟩

/-- `df['Win']` (line 29): `df['Closed PnL'].apply(lambda x: 1 if x > 0
else 0)`. A missing value compares false under `x > 0`, so it maps to 0. -/
def winOf : Option ℚ → Nat
  | some v => if 0 < v then 1 else 0
  | none => 0

/-- One merged output row built from a matched trade/sentiment pair,
with the derived `Win` column of line 29 already attached. -/
def mkRow (t : TradeN) (s : SentN) : Row :=
  ⟨t.timestampIST, t.side, t.coin, t.closedPnl, t.dateClean,
   s.date, s.classification, winOf t.closedPnl⟩

/-- `pd.merge(df_hist, df_fg, on='Date_Clean', how='inner')` (line 26):
for each trade row in order, emit one output row per sentiment row whose
`Date_Clean` key equals the trade's (null keys match null keys). -/
def mergeInner (ts : List TradeN) (ss : List SentN) : List Row :=
  (ts.map (fun t => (ss.filter (fun s => decide (s.dateClean = t.dateClean))).map (mkRow t))).flatten

/-- The whole happy-path data-processing block (lines 19-29): normalize
both tables, inner-merge, derive `Win`. -/
def joinedTable (ts : List RawTrade) (ss : List RawSent) : List Row :=
  mergeInner (ts.map normTrade) (ss.map normSent)

/-- The column names of the happy-path merged dataframe (all columns of
both inputs, the shared key, and `Win`). -/
def mergedColumns : List String :=
  ["Timestamp IST", "Side", "Coin", "Closed PnL", "Date_Clean",
   "date", "classification", "Win"]

/-- The column names of the fallback empty dataframe of `app.py` line 36. -/
def fallbackColumns : List String :=
  ["Date_Clean", "classification", "Closed PnL", "Win", "Side", "Coin"]

/-- The `try`/`except` load of lines 11-36: an unreadable input file is a
`none` argument, and any failure replaces the merged table by an empty
one. -/
def loadJoined (tradeFile : Option (List RawTrade)) (sentFile : Option (List RawSent)) : List Row :=
  match tradeFile, sentFile with
  | some ts, some ss => joinedTable ts ss
  | _, _ => []

/-- The column names the load of lines 11-36 leaves in `df`. -/
def loadedColumns (tradeFile : Option (List RawTrade)) (sentFile : Option (List RawSent)) : List String :=
  match tradeFile, sentFile with
  | some _, some _ => mergedColumns
  | _, _ => fallbackColumns

/-- `df['Closed PnL'].sum()` (line 89): pandas sums with `skipna=True`,
adding only the present values; the empty sum is 0. -/
def totalPnl (df : List Row) : ℚ :=
  df.foldl (fun acc r => match r.closedPnl with | some v => acc + v | none => acc) 0

/-- `len(df)` (line 95). -/
def tradeCount (df : List Row) : Nat :=
  df.length

/-- Sum of the 0/1 `Win` column. -/
def winSum (df : List Row) : Nat :=
  (df.map (fun r => r.win)).sum

/-- `df['Win'].mean()` (line 101): sum over count, `NaN` (`none`) on an
empty column. -/
def winRate (df : List Row) : Option ℚ :=
  if df.length = 0 then none else some ((winSum df : ℚ) / (df.length : ℚ))

/-- The `Closed PnL` values of one classification group (line 114 box
plot: `px.box(df, x='classification', y='Closed PnL', ...)`). -/
def pnlBySentiment (df : List Row) (c : String) : List (Option ℚ) :=
  (df.filter (fun r => decide (r.classification = c))).map (fun r => r.closedPnl)

/-- `df.groupby('classification')['Win'].mean()` at one key (line 131). -/
def winRateBySentiment (df : List Row) (c : String) : Option ℚ :=
  winRate (df.filter (fun r => decide (r.classification = c)))

/-- Key order used by `sort_values('Date_Clean')`: ascending dates with
null dates last (`na_position='last'`). -/
def keyLeb : Option CalDate → Option CalDate → Bool
  | _, none => true
  | none, some _ => false
  | some a, some b => CalDate.leb a b

/-- The orderings `df.sort_values('Date_Clean')` (line 153) may choose: a
permutation of the rows whose date keys are ascending with nulls last.
The default numpy quicksort is deterministic but not stable, so the
tie order within one date is not pinned down beyond this. -/
def SortedByDate (df out : List Row) : Prop :=
  df.Perm out ∧ out.Pairwise (fun a b => keyLeb a.dateClean b.dateClean = true)

/-- `Series.cumsum()` with `skipna=True` (line 154): missing values stay
missing in the output, present values accumulate the running total of
all present values so far. -/
def runningSumsAux (acc : ℚ) : List (Option ℚ) → List (Option ℚ)
  | [] => []
  | none :: xs => none :: runningSumsAux acc xs
  | some v :: xs => some (acc + v) :: runningSumsAux (acc + v) xs

/-- `df.sort_values('Date_Clean')['Closed PnL'].cumsum()` applied to an
already-sorted row list. -/
def runningSums (xs : List (Option ℚ)) : List (Option ℚ) :=
  runningSumsAux 0 xs

/-- The cumulative-PnL series of lines 152-155: the sorted rows' dates
paired with the running sums of their `Closed PnL`. -/
def cumulativePnl (out : List Row) : List (Option CalDate × Option ℚ) :=
  (out.map (fun r => r.dateClean)).zip (runningSums (out.map (fun r => r.closedPnl)))

/-- Whether a normalized trade row has a sentiment match: a present
(non-null) date key that occurs among the sentiment date keys. -/
def hasMatch (ss : List SentN) (t : TradeN) : Bool :=
  t.dateClean.isSome && ss.any (fun s => decide (s.dateClean = t.dateClean))

/-- First sentiment row carrying a given date key. -/
def findSent (ss : List SentN) (k : Option CalDate) : Option SentN :=
  ss.find? (fun s => decide (s.dateClean = k))

/-- The rows one trade contributes to the spec-side join: nothing for a
null or unmatched date, one classification-augmented row otherwise. -/
def joinSpecBlock (ss : List SentN) (t : TradeN) : List Row :=
  match t.dateClean with
  | none => []
  | some d =>
    match findSent ss (some d) with
    | some s => [mkRow t s]
    | none => []

/-- Spec-side joiner, following the spec's words for comparison with
`mergeInner`: the output contains exactly the trade rows whose date key
exists in the sentiment set, in trade order, each augmented with that
date's classification; trades with unmatched or null dates are
excluded. -/
def joinSpec (ts : List TradeN) (ss : List SentN) : List Row :=
  (ts.map (joinSpecBlock ss)).flatten

/-- One full run of the pipeline: loader, normalizer, joiner, the three
scalar aggregates, the two per-classification grouped aggregates, and
the cumulative-PnL series computed from the row ordering chosen by
`sortImpl`. The code's sort is numpy's quicksort — a deterministic
function whose tie order the embedding does not pin down — so the run
is parameterized by an arbitrary but fixed sort implementation, applied
the same way on every run. -/
def pipelineRunAll (sortImpl : List Row → List Row)
    (tradeFile : Option (List RawTrade)) (sentFile : Option (List RawSent)) :
    List Row × List String × ℚ × Nat × Option ℚ ×
      (String → List (Option ℚ)) × (String → Option ℚ) ×
      List (Option CalDate × Option ℚ) :=
  (loadJoined tradeFile sentFile,
   loadedColumns tradeFile sentFile,
   totalPnl (loadJoined tradeFile sentFile),
   tradeCount (loadJoined tradeFile sentFile),
   winRate (loadJoined tradeFile sentFile),
   fun c => pnlBySentiment (loadJoined tradeFile sentFile) c,
   fun c => winRateBySentiment (loadJoined tradeFile sentFile) c,
   cumulativePnl (sortImpl (loadJoined tradeFile sentFile)))

/-! Concrete tables used by witnesses and counterexamples. The first two
are the concrete scenario of the spec (section 8, property 6). -/

/-- Three concrete trade rows: two on 2021-02-01, one on 2021-02-02. -/
def exTrades : List RawTrade :=
  [⟨"01-02-2021 10:00", "BUY", "BTC", some 100⟩,
   ⟨"01-02-2021 12:30", "SELL", "ETH", some (-30)⟩,
   ⟨"02-02-2021 09:15", "BUY", "BTC", some 50⟩]

/-- Two concrete sentiment rows: 2021-02-01 and 2021-02-03. -/
def exSents : List RawSent :=
  [⟨"2021-02-01", "Fear"⟩, ⟨"2021-02-03", "Greed"⟩]

/-- A concrete sentiment table matching no trade of `exTrades`. -/
def exSentsNoMatch : List RawSent :=
  [⟨"2021-02-05", "Greed"⟩]

/-- The first row of `joinedTable exTrades exSents`. -/
def exRow1 : Row :=
  ⟨"01-02-2021 10:00", "BUY", "BTC", some 100, some ⟨2021, 2, 1⟩, "2021-02-01", "Fear", 1⟩

/-- A one-trade table whose single `Closed PnL` cell is missing. -/
def exTradesNone : List RawTrade :=
  [⟨"01-02-2021 10:00", "BUY", "BTC", none⟩]

/-- The joined row arising from `exTradesNone` and `exSents`. -/
def exRowNone : Row :=
  ⟨"01-02-2021 10:00", "BUY", "BTC", none, some ⟨2021, 2, 1⟩, "2021-02-01", "Fear", 0⟩

/-- Concrete trades for the cumulative-PnL counterexample: the trade with
the strictly latest date has a missing `Closed PnL`. -/
def exTrades7 : List RawTrade :=
  [⟨"01-02-2021 10:00", "BUY", "BTC", some 5⟩,
   ⟨"02-02-2021 11:00", "SELL", "ETH", none⟩]

/-- Sentiment rows matching both dates of `exTrades7`. -/
def exSents7 : List RawSent :=
  [⟨"2021-02-01", "Fear"⟩, ⟨"2021-02-02", "Greed"⟩]

/-- The joined table of `exTrades7` and `exSents7`. -/
def exJoined7 : List Row :=
  joinedTable exTrades7 exSents7

/-! Helper lemmas about the embedded operations. -/

/-- The `skipna` fold of `totalPnl`, with a general accumulator, is the
accumulator plus the sum of the present values. -/
lemma totalPnl_foldl (df : List Row) : ∀ acc : ℚ,
    df.foldl (fun acc r => match r.closedPnl with | some v => acc + v | none => acc) acc
      = acc + (df.map (fun r => r.closedPnl.getD 0)).sum := by
  induction df with
  | nil => intro acc; simp
  | cons r rest ih =>
    intro acc
    cases h : r.closedPnl with
    | none => simp [List.foldl_cons, h, ih]
    | some v => simp [List.foldl_cons, h, ih, add_assoc]

/-- `totalPnl` is the sum of the present `Closed PnL` values. -/
lemma totalPnl_eq_sum (df : List Row) :
    totalPnl df = (df.map (fun r => r.closedPnl.getD 0)).sum := by
  simpa using totalPnl_foldl df 0

/-- `totalPnl` only depends on the multiset of rows. -/
lemma totalPnl_perm {df₁ df₂ : List Row} (h : df₁.Perm df₂) :
    totalPnl df₁ = totalPnl df₂ := by
  rw [totalPnl_eq_sum, totalPnl_eq_sum]
  exact (h.map _).sum_eq

/-- The derived `Win` value is 0 or 1. -/
lemma winOf_le_one (p : Option ℚ) : winOf p ≤ 1 := by
  cases p with
  | none => simp [winOf]
  | some v => simp only [winOf]; split <;> simp

/-- Membership in the merged table: exactly the key-matched pairs. -/
lemma mem_mergeInner {ts : List TradeN} {ss : List SentN} {r : Row} :
    r ∈ mergeInner ts ss ↔
      ∃ t ∈ ts, ∃ s ∈ ss, s.dateClean = t.dateClean ∧ r = mkRow t s := by
  constructor
  · intro hr
    simp only [mergeInner, List.mem_flatten, List.mem_map] at hr
    obtain ⟨l, ⟨t, ht, rfl⟩, hrl⟩ := hr
    simp only [List.mem_map, List.mem_filter, decide_eq_true_eq] at hrl
    obtain ⟨s, ⟨hs, hk⟩, rfl⟩ := hrl
    exact ⟨t, ht, s, hs, hk, rfl⟩
  · rintro ⟨t, ht, s, hs, hk, rfl⟩
    simp only [mergeInner, List.mem_flatten, List.mem_map]
    refine ⟨(ss.filter (fun s => decide (s.dateClean = t.dateClean))).map (mkRow t),
      ⟨t, ht, rfl⟩, ?_⟩
    simp only [List.mem_map, List.mem_filter, decide_eq_true_eq]
    exact ⟨s, ⟨hs, hk⟩, rfl⟩

/-- Every row the load produces carries a 0/1 `Win` value. -/
lemma win_le_one_loadJoined (tradeFile : Option (List RawTrade))
    (sentFile : Option (List RawSent)) :
    ∀ r ∈ loadJoined tradeFile sentFile, r.win ≤ 1 := by
  intro r hr
  cases tradeFile with
  | none => simp [loadJoined] at hr
  | some ts =>
    cases sentFile with
    | none => simp [loadJoined] at hr
    | some ss =>
      simp only [loadJoined, joinedTable] at hr
      obtain ⟨t, _, s, _, _, rfl⟩ := mem_mergeInner.mp hr
      exact winOf_le_one _

/-- A 0/1-valued `Win` column sums to at most the row count. -/
lemma winSum_le_length (df : List Row) (h : ∀ r ∈ df, r.win ≤ 1) :
    winSum df ≤ df.length := by
  induction df with
  | nil => simp [winSum]
  | cons r rest ih =>
    have hr : r.win ≤ 1 := h r (List.mem_cons_self r rest)
    have hrest := ih (fun x hx => h x (List.mem_cons_of_mem r hx))
    simp only [winSum, List.map_cons, List.sum_cons, List.length_cons] at hrest ⊢
    omega

/-- `winSum` over an appended row adds that row's `Win`. -/
lemma winSum_append (df : List Row) (r : Row) :
    winSum (df ++ [r]) = winSum df + r.win := by
  simp [winSum]

/-- With all-present, duplicate-free sentiment date keys, filtering on a
key returns the single found row (or nothing). -/
lemma filter_key_of_find (ss : List SentN) (k : Option CalDate)
    (hnn : ∀ s ∈ ss, s.dateClean ≠ none)
    (hnd : (ss.map (fun s => s.dateClean)).Nodup) :
    ss.filter (fun s => decide (s.dateClean = k)) = (findSent ss k).toList := by
  induction ss with
  | nil => rfl
  | cons s₀ rest ih =>
    simp only [List.map_cons, List.nodup_cons] at hnd
    by_cases h : s₀.dateClean = k
    · rw [List.filter_cons, if_pos (by simpa using h), findSent,
        List.find?_cons_of_pos _ (by simpa using h)]
      have hrest : rest.filter (fun s => decide (s.dateClean = k)) = [] := by
        rw [List.filter_eq_nil_iff]
        intro s hs
        simp only [decide_eq_true_eq]
        intro hk
        exact hnd.1 (List.mem_map.mpr ⟨s, hs, by rw [hk, h]⟩)
      rw [hrest]
      rfl
    · rw [List.filter_cons, if_neg (by simpa using h), findSent,
        List.find?_cons_of_neg _ (by simpa using h)]
      exact ih (fun s hs => hnn s (List.mem_cons_of_mem s₀ hs)) hnd.2

/-- A found sentiment row carries the searched key and occurs in the
table. -/
lemma findSent_some {ss : List SentN} {k : Option CalDate} {s : SentN}
    (hf : findSent ss k = some s) : s ∈ ss ∧ s.dateClean = k := by
  rw [findSent] at hf
  exact ⟨List.mem_of_find?_eq_some hf, by simpa using List.find?_some hf⟩

/-- An empty find means no sentiment row carries the key. -/
lemma findSent_none {ss : List SentN} {k : Option CalDate}
    (hf : findSent ss k = none) : ∀ s ∈ ss, s.dateClean ≠ k := by
  rw [findSent] at hf
  intro s hs
  simpa using List.find?_eq_none.mp hf s hs

/-- `hasMatch` in terms of `findSent`, for a present date key. -/
lemma hasMatch_findSent (ss : List SentN) (t : TradeN) (d : CalDate)
    (ht : t.dateClean = some d) :
    hasMatch ss t = (findSent ss (some d)).isSome := by
  cases hf : findSent ss (some d) with
  | none =>
    simp only [hasMatch, ht, Option.isSome_none]
    rw [Bool.and_eq_false_iff]
    right
    rw [← Bool.not_eq_true, List.any_eq_true]
    rintro ⟨s, hs, hp⟩
    exact findSent_none hf s hs (by simpa [ht] using hp)
  | some s =>
    obtain ⟨hmem, hk⟩ := findSent_some hf
    simp only [hasMatch, ht, Option.isSome_some]
    rw [Bool.and_eq_true]
    exact ⟨rfl, List.any_eq_true.mpr ⟨s, hmem, by simp [ht, hk]⟩⟩

/-- Under the spec's data-quality assumptions (no null sentiment dates,
no duplicate sentiment dates), the pandas merge agrees with the
spec-worded joiner. -/
lemma mergeInner_eq_joinSpec (ts : List TradeN) (ss : List SentN)
    (hnn : ∀ s ∈ ss, s.dateClean ≠ none)
    (hnd : (ss.map (fun s => s.dateClean)).Nodup) :
    mergeInner ts ss = joinSpec ts ss := by
  unfold mergeInner joinSpec
  congr 1
  apply List.map_congr_left
  intro t _
  cases ht : t.dateClean with
  | none =>
    have hf : ss.filter (fun s => decide (s.dateClean = none)) = [] := by
      rw [List.filter_eq_nil_iff]
      intro s hs
      simpa using hnn s hs
    rw [hf, joinSpecBlock, ht]
    rfl
  | some d =>
    have := filter_key_of_find ss (some d) hnn hnd
    rw [this, joinSpecBlock, ht]
    cases hf : findSent ss (some d) <;> simp [hf]

/-- The block one trade contributes is a singleton exactly on a match. -/
lemma joinSpecBlock_length (ss : List SentN) (t : TradeN) :
    (joinSpecBlock ss t).length = if hasMatch ss t then 1 else 0 := by
  cases ht : t.dateClean with
  | none => simp [joinSpecBlock, hasMatch, ht]
  | some d =>
    rw [joinSpecBlock, ht, hasMatch_findSent ss t d ht]
    cases hf : findSent ss (some d) <;> simp [hf]

/-- `joinSpec` emits one row per matched trade, in trade order. -/
lemma joinSpec_length (ts : List TradeN) (ss : List SentN) :
    (joinSpec ts ss).length = (ts.filter (hasMatch ss)).length := by
  induction ts with
  | nil => rfl
  | cons t rest ih =>
    rw [joinSpec, List.map_cons, List.flatten_cons, List.length_append,
      List.filter_cons]
    rw [joinSpec] at ih
    rw [ih, joinSpecBlock_length ss t]
    cases h : hasMatch ss t
    · simp [h]
    · simp [h, Nat.add_comm]

/-- The `Closed PnL` contributions of `joinSpec` are exactly those of the
matched trades, in order. -/
lemma joinSpec_pnls (ts : List TradeN) (ss : List SentN) :
    (joinSpec ts ss).map (fun r => r.closedPnl.getD 0) =
      (ts.filter (hasMatch ss)).map (fun t => t.closedPnl.getD 0) := by
  induction ts with
  | nil => rfl
  | cons t rest ih =>
    rw [joinSpec, List.map_cons, List.flatten_cons, List.map_append,
      List.filter_cons]
    rw [joinSpec] at ih
    rw [ih]
    cases ht : t.dateClean with
    | none => simp [joinSpecBlock, hasMatch, ht]
    | some d =>
      rw [joinSpecBlock, ht, hasMatch_findSent ss t d ht]
      cases hf : findSent ss (some d) <;> simp [hf, mkRow]

/-- `runningSumsAux` preserves length. -/
lemma runningSumsAux_length (xs : List (Option ℚ)) : ∀ acc : ℚ,
    (runningSumsAux acc xs).length = xs.length := by
  induction xs with
  | nil => intro acc; rfl
  | cons x rest ih =>
    intro acc
    cases x <;> simp [runningSumsAux, ih]

/-- Dropping the head of a nonempty-tailed list keeps the last element. -/
lemma getLast?_cons_of_ne_nil {α : Type} (a : α) {l : List α} (h : l ≠ []) :
    (a :: l).getLast? = l.getLast? := by
  cases l with
  | nil => exact absurd rfl h
  | cons b m => exact List.getLast?_cons_cons

/-- On a nonempty list of present values, the running sums end at the
accumulator plus the total. -/
lemma runningSumsAux_getLast (xs : List (Option ℚ)) : ∀ acc : ℚ, xs ≠ [] →
    (∀ x ∈ xs, x.isSome = true) →
    (runningSumsAux acc xs).getLast? =
      some (some (acc + (xs.map (fun x => x.getD 0)).sum)) := by
  induction xs with
  | nil => intro acc h; exact absurd rfl h
  | cons x rest ih =>
    intro acc _ hall
    obtain ⟨v, rfl⟩ : ∃ v, x = some v := by
      cases hx : x with
      | none => exact absurd (hx ▸ hall x (List.mem_cons_self x rest)) (by simp)
      | some v => exact ⟨v, rfl⟩
    cases hrest : rest with
    | nil => simp [runningSumsAux]
    | cons y ys =>
      rw [runningSumsAux]
      have hne : runningSumsAux (acc + v) rest ≠ [] := by
        intro hnil
        have := runningSumsAux_length rest (acc + v)
        rw [hnil, hrest] at this
        simp at this
      rw [hrest] at hne
      rw [getLast?_cons_of_ne_nil _ hne, ← hrest]
      rw [ih (acc + v) (by simp [hrest]) (fun z hz => hall z (List.mem_cons_of_mem _ hz))]
      simp [add_assoc]

/-- Second projection of a zip of equal-length lists. -/
lemma map_snd_zip_eq {α β : Type} (l₁ : List α) (l₂ : List β)
    (h : l₁.length = l₂.length) : (l₁.zip l₂).map Prod.snd = l₂ := by
  induction l₁ generalizing l₂ with
  | nil =>
    cases l₂ with
    | nil => rfl
    | cons b m => simp at h
  | cons a l ih =>
    cases l₂ with
    | nil => simp at h
    | cons b m =>
      simp only [List.zip_cons_cons, List.map_cons]
      rw [ih m (by simpa using h)]

/-- The running totals of the cumulative-PnL series are the running sums
of the sorted rows' `Closed PnL` values. -/
lemma cumulativePnl_snd (out : List Row) :
    (cumulativePnl out).map Prod.snd = runningSums (out.map (fun r => r.closedPnl)) := by
  apply map_snd_zip_eq
  simp [runningSums, runningSumsAux_length]

/-- `CalDate.leb` unfolded to linear arithmetic over year, month, day. -/
lemma CalDate.leb_iff (a b : CalDate) : a.leb b = true ↔
    (a.year < b.year ∨ (a.year = b.year ∧
      (a.month < b.month ∨ (a.month = b.month ∧ a.day ≤ b.day)))) := by
  unfold CalDate.leb
  split_ifs with h1 h2 <;> simp only [decide_eq_true_eq] <;> omega

/-- The calendar-date order is total. -/
lemma CalDate.leb_total (a b : CalDate) : a.leb b = true ∨ b.leb a = true := by
  rw [CalDate.leb_iff, CalDate.leb_iff]
  omega

/-- The calendar-date order is transitive. -/
lemma CalDate.leb_trans {a b c : CalDate} (h₁ : a.leb b = true)
    (h₂ : b.leb c = true) : a.leb c = true := by
  rw [CalDate.leb_iff] at h₁ h₂ ⊢
  omega

/-- The sort key order (dates ascending, nulls last) is total. -/
lemma keyLeb_total (x y : Option CalDate) :
    keyLeb x y = true ∨ keyLeb y x = true := by
  cases x with
  | none =>
    cases y with
    | none => exact Or.inl rfl
    | some b => exact Or.inr rfl
  | some a =>
    cases y with
    | none => exact Or.inl rfl
    | some b => exact CalDate.leb_total a b

/-- The sort key order is transitive. -/
lemma keyLeb_trans {x y z : Option CalDate} (h₁ : keyLeb x y = true)
    (h₂ : keyLeb y z = true) : keyLeb x z = true := by
  cases z with
  | none => cases x <;> rfl
  | some c =>
    cases y with
    | none => exact absurd h₂ (by simp [keyLeb])
    | some b =>
      cases x with
      | none => exact absurd h₁ (by simp [keyLeb])
      | some a =>
        simp only [keyLeb] at h₁ h₂ ⊢
        exact CalDate.leb_trans h₁ h₂

instance rowKeyIsTotal :
    IsTotal Row (fun a b => keyLeb a.dateClean b.dateClean = true) :=
  ⟨fun a b => keyLeb_total a.dateClean b.dateClean⟩

instance rowKeyIsTrans :
    IsTrans Row (fun a b => keyLeb a.dateClean b.dateClean = true) :=
  ⟨fun _ _ _ h₁ h₂ => keyLeb_trans h₁ h₂⟩

/-- An executable sort by the date key (insertion sort): one concrete
deterministic implementation realizing a `SortedByDate` ordering, used
to instantiate sort-parametric statements. -/
def sortRowsModel (df : List Row) : List Row :=
  List.insertionSort (fun a b => keyLeb a.dateClean b.dateClean = true) df

/-- `sortRowsModel` chooses an admissible ordering of any table. -/
lemma sortRowsModel_sorts (df : List Row) : SortedByDate df (sortRowsModel df) := by
  constructor
  · exact (List.perm_insertionSort _ df).symm
  · exact List.sorted_insertionSort _ df

/-! The claims. -/

/-- C1, counterexample: a trade whose timestamp fails to parse gets the
null date, and a sentiment row whose date fails to parse also gets the
null date — and then, contrary to the claim, the inner merge matches the
two nulls, so a null-date trade row does appear in the joined table. -/
theorem c1_null_join_counterexample :
    parseTradeTimestamp "31-13-2021 10:00" = none ∧
    parseSentDate "not-a-date" = none ∧
    (joinedTable [⟨"31-13-2021 10:00", "BUY", "BTC", some 5⟩]
        [⟨"not-a-date", "Fear"⟩]).map (fun r => r.dateClean) = [none] := by
  exact ⟨rfl, rfl, by decide⟩

/-- C1 (amended): a record whose raw date string fails to parse gets the
null-sentinel date, and no null-date trade row appears in the joined
table provided the sentiment table contains no null-date record; if the
sentiment table does contain a null-date record, the null-date trades
match it and do appear. -/
theorem c1_null_dates_excluded (ts : List RawTrade) (ss : List RawSent)
    (hss : ∀ s ∈ ss, parseSentDate s.date ≠ none) :
    (∀ t ∈ ts, parseTradeTimestamp t.timestampIST = none →
      (normTrade t).dateClean = none) ∧
    ∀ r ∈ joinedTable ts ss, r.dateClean ≠ none := by
  constructor
  · intro t _ hp
    simpa [normTrade] using hp
  · intro r hr
    obtain ⟨t', _, s', hs', hk, rfl⟩ := mem_mergeInner.mp hr
    obtain ⟨s₀, hs₀, rfl⟩ := List.mem_map.mp hs'
    have : (normSent s₀).dateClean ≠ none := by
      simpa [normSent] using hss s₀ hs₀
    simp only [mkRow, ← hk]
    exact this

/-- C1 witness: on a sentiment table with no null dates, no joined row
has a null date. -/
theorem c1_null_dates_excluded_witness :
    (∀ s ∈ exSents, parseSentDate s.date ≠ none) ∧
    ∀ r ∈ joinedTable exTrades exSents, r.dateClean ≠ none :=
  ⟨by decide, (c1_null_dates_excluded exTrades exSents (by decide)).2⟩

/-- C3: with either input unreadable, the loader yields the zero-row
table with exactly the six fallback columns, and every downstream
metric evaluates to its degenerate value instead of failing. -/
theorem c3_fallback_empty_table (tradeFile : Option (List RawTrade))
    (sentFile : Option (List RawSent))
    (h : tradeFile = none ∨ sentFile = none) :
    loadJoined tradeFile sentFile = [] ∧
    loadedColumns tradeFile sentFile =
      ["Date_Clean", "classification", "Closed PnL", "Win", "Side", "Coin"] ∧
    totalPnl (loadJoined tradeFile sentFile) = 0 ∧
    tradeCount (loadJoined tradeFile sentFile) = 0 ∧
    winRate (loadJoined tradeFile sentFile) = none ∧
    cumulativePnl (loadJoined tradeFile sentFile) = [] ∧
    ∀ c, pnlBySentiment (loadJoined tradeFile sentFile) c = [] ∧
      winRateBySentiment (loadJoined tradeFile sentFile) c = none := by
  have hload : loadJoined tradeFile sentFile = [] ∧
      loadedColumns tradeFile sentFile = fallbackColumns := by
    rcases h with h | h
    · subst h
      cases sentFile <;> exact ⟨rfl, rfl⟩
    · subst h
      cases tradeFile <;> exact ⟨rfl, rfl⟩
  refine ⟨hload.1, hload.2, ?_, ?_, ?_, ?_, ?_⟩ <;>
    simp [hload.1, totalPnl, tradeCount, winRate, cumulativePnl, runningSums,
      runningSumsAux, pnlBySentiment, winRateBySentiment, winSum]

/-- C3 witness: a missing trade log falls back to the empty
six-column table, with all metrics degenerate. -/
theorem c3_fallback_empty_table_witness :
    loadJoined none (some exSents) = [] ∧
    loadedColumns none (some exSents) =
      ["Date_Clean", "classification", "Closed PnL", "Win", "Side", "Coin"] ∧
    totalPnl (loadJoined none (some exSents)) = 0 ∧
    winRate (loadJoined none (some exSents)) = none ∧
    pnlBySentiment (loadJoined none (some exSents)) "Fear" = [] := by
  have h := c3_fallback_empty_table none (some exSents) (Or.inl rfl)
  exact ⟨h.1, h.2.1, h.2.2.1, h.2.2.2.2.1, (h.2.2.2.2.2.2 "Fear").1⟩

/-- C4: over any loaded table, the win rate is the mean of the 0/1 `Win`
column: it is a rational in [0,1] whenever the row count is positive,
and the null value `NaN` — not an exception — when the table is empty. -/
theorem c4_win_rate_bounds (tradeFile : Option (List RawTrade))
    (sentFile : Option (List RawSent)) :
    (0 < tradeCount (loadJoined tradeFile sentFile) →
      ∃ w, winRate (loadJoined tradeFile sentFile) = some w ∧ 0 ≤ w ∧ w ≤ 1) ∧
    (tradeCount (loadJoined tradeFile sentFile) = 0 →
      winRate (loadJoined tradeFile sentFile) = none) := by
  constructor
  · intro hpos
    have hne : (loadJoined tradeFile sentFile).length ≠ 0 := by
      simpa [tradeCount] using Nat.pos_iff_ne_zero.mp hpos
    refine ⟨(winSum (loadJoined tradeFile sentFile) : ℚ) /
      ((loadJoined tradeFile sentFile).length : ℚ), ?_, ?_, ?_⟩
    · simp [winRate, hne]
    · positivity
    · rw [div_le_one (by positivity)]
      exact_mod_cast winSum_le_length _ (win_le_one_loadJoined tradeFile sentFile)
  · intro hzero
    simp [winRate, tradeCount] at hzero ⊢
    simp [hzero]

/-- C4 witness: the loaded example table has a defined win rate in
[0,1], and the empty load reports the null win rate. -/
theorem c4_win_rate_bounds_witness :
    (0 < tradeCount (loadJoined (some exTrades) (some exSents)) ∧
      ∃ w, winRate (loadJoined (some exTrades) (some exSents)) = some w ∧
        0 ≤ w ∧ w ≤ 1) ∧
    (tradeCount (loadJoined none none) = 0 ∧ winRate (loadJoined none none) = none) :=
  ⟨⟨by decide, (c4_win_rate_bounds (some exTrades) (some exSents)).1 (by decide)⟩,
   ⟨rfl, (c4_win_rate_bounds none none).2 rfl⟩⟩

/-- C5, counterexample: the sentiment table `[⟨"no-date-either", "Fear"⟩]`
has at most one row per calendar date, yet the joined table holds one
row — a null-date trade matched with the null-date sentiment row —
while no trade has a present date occurring among the sentiment dates,
so the joined row count differs from the matched-trade count. -/
theorem c5_join_shape_counterexample :
    ((([⟨"no-date-either", "Fear"⟩] : List RawSent).map normSent).map
        (fun s => s.dateClean)).Nodup ∧
    (joinedTable [⟨"99-99-9999 99:99", "SELL", "ETH", some 3⟩]
        [⟨"no-date-either", "Fear"⟩]).length = 1 ∧
    ((([⟨"99-99-9999 99:99", "SELL", "ETH", some 3⟩] : List RawTrade).map
        normTrade).filter
      (hasMatch (([⟨"no-date-either", "Fear"⟩] : List RawSent).map normSent))).length
      = 0 := by
  exact ⟨by decide, by decide, by decide⟩

/-- C5 (amended): provided the sentiment table has at most one row per
date key and no null-date rows, the joined table is exactly the
spec-side join — the trade rows whose present date occurs among the
sentiment dates, in trade order, each augmented with that date's
classification — and its row count is the number of matched trades. -/
theorem c5_join_shape (ts : List RawTrade) (ss : List RawSent)
    (hnd : ((ss.map normSent).map (fun s => s.dateClean)).Nodup)
    (hnn : ∀ s ∈ ss, parseSentDate s.date ≠ none) :
    joinedTable ts ss = joinSpec (ts.map normTrade) (ss.map normSent) ∧
    (joinedTable ts ss).length =
      ((ts.map normTrade).filter (hasMatch (ss.map normSent))).length := by
  have hnn' : ∀ s ∈ ss.map normSent, s.dateClean ≠ none := by
    intro s hs
    obtain ⟨s₀, hs₀, rfl⟩ := List.mem_map.mp hs
    simpa [normSent] using hnn s₀ hs₀
  have heq := mergeInner_eq_joinSpec (ts.map normTrade) (ss.map normSent) hnn' hnd
  refine ⟨heq, ?_⟩
  rw [joinedTable, heq, joinSpec_length]

/-- C5 witness: on the concrete example tables, the joined table equals
the spec-side join and has one row per matched trade. -/
theorem c5_join_shape_witness :
    ((exSents.map normSent).map (fun s => s.dateClean)).Nodup ∧
    joinedTable exTrades exSents =
      joinSpec (exTrades.map normTrade) (exSents.map normSent) ∧
    (joinedTable exTrades exSents).length =
      ((exTrades.map normTrade).filter (hasMatch (exSents.map normSent))).length :=
  ⟨by decide, (c5_join_shape exTrades exSents (by decide) (by decide)).1,
   (c5_join_shape exTrades exSents (by decide) (by decide)).2⟩

/-- C6: `totalPnl` is exactly the sum of the `Closed PnL` contributions
of the joined rows, one contribution per row; it is 0 on the empty
table; and, under the duplicate-free non-null sentiment assumptions, it
is the sum over exactly the matched trades — none omitted, none counted
twice. -/
theorem c6_total_pnl (ts : List RawTrade) (ss : List RawSent) :
    totalPnl (joinedTable ts ss) =
      ((joinedTable ts ss).map (fun r => r.closedPnl.getD 0)).sum ∧
    (joinedTable ts ss = [] → totalPnl (joinedTable ts ss) = 0) ∧
    (((ss.map normSent).map (fun s => s.dateClean)).Nodup →
      (∀ s ∈ ss, parseSentDate s.date ≠ none) →
      totalPnl (joinedTable ts ss) =
        (((ts.map normTrade).filter (hasMatch (ss.map normSent))).map
          (fun t => t.closedPnl.getD 0)).sum) := by
  refine ⟨totalPnl_eq_sum _, ?_, ?_⟩
  · intro h
    rw [h]
    rfl
  · intro hnd hnn
    have hnn' : ∀ s ∈ ss.map normSent, s.dateClean ≠ none := by
      intro s hs
      obtain ⟨s₀, hs₀, rfl⟩ := List.mem_map.mp hs
      simpa [normSent] using hnn s₀ hs₀
    rw [totalPnl_eq_sum, joinedTable,
      mergeInner_eq_joinSpec (ts.map normTrade) (ss.map normSent) hnn' hnd,
      joinSpec_pnls]

/-- C6 witness: with no matching sentiment day the joined table is empty
and `totalPnl` is 0 — equal to the (empty) sum over matched trades. -/
theorem c6_total_pnl_witness :
    totalPnl (joinedTable exTrades exSentsNoMatch) =
      ((joinedTable exTrades exSentsNoMatch).map (fun r => r.closedPnl.getD 0)).sum ∧
    totalPnl (joinedTable exTrades exSentsNoMatch) = 0 ∧
    totalPnl (joinedTable exTrades exSentsNoMatch) =
      (((exTrades.map normTrade).filter (hasMatch (exSentsNoMatch.map normSent))).map
        (fun t => t.closedPnl.getD 0)).sum :=
  ⟨(c6_total_pnl exTrades exSentsNoMatch).1,
   (c6_total_pnl exTrades exSentsNoMatch).2.1 rfl,
   (c6_total_pnl exTrades exSentsNoMatch).2.2 (by decide) (by decide)⟩

/-- C7, counterexample: in `exJoined7` the trade with the strictly
latest date has a missing `Closed PnL`, so every date-ascending ordering
puts it last; `cumsum` leaves a null there, and the last element of the
cumulative series is null rather than `totalPnl`. -/
theorem c7_last_cumulative_counterexample :
    SortedByDate exJoined7 exJoined7 ∧ exJoined7 ≠ [] ∧
    ((cumulativePnl exJoined7).map Prod.snd).getLast? ≠
      some (some (totalPnl exJoined7)) := by
  refine ⟨⟨List.Perm.refl _, by decide⟩, by decide, ?_⟩
  have h : ((cumulativePnl exJoined7).map Prod.snd).getLast? = some none := rfl
  rw [h]
  intro hc
  exact Option.noConfusion (Option.some.inj hc)

/-- C7 (amended): for every nonempty joined table all of whose
`Closed PnL` values are present, and every date-ascending ordering the
sort may choose, the last running total of the cumulative-PnL series
equals `totalPnl`. -/
theorem c7_last_cumulative (df out : List Row)
    (hsort : SortedByDate df out) (hne : df ≠ [])
    (hall : ∀ r ∈ df, r.closedPnl.isSome = true) :
    ((cumulativePnl out).map Prod.snd).getLast? = some (some (totalPnl df)) := by
  obtain ⟨hperm, _⟩ := hsort
  have houtne : out ≠ [] := by
    intro h
    exact hne (List.Perm.eq_nil (h ▸ hperm))
  rw [cumulativePnl_snd, runningSums]
  have hxs : out.map (fun r => r.closedPnl) ≠ [] := by simpa using houtne
  have hxall : ∀ x ∈ out.map (fun r => r.closedPnl), x.isSome = true := by
    intro x hx
    obtain ⟨r, hr, rfl⟩ := List.mem_map.mp hx
    exact hall r (hperm.mem_iff.mpr hr)
  rw [runningSumsAux_getLast _ 0 hxs hxall, zero_add, List.map_map,
    totalPnl_perm hperm, totalPnl_eq_sum]
  rfl

/-- C7 witness: on the all-present example table the last running total
is the total PnL. -/
theorem c7_last_cumulative_witness :
    SortedByDate (joinedTable exTrades exSents) (joinedTable exTrades exSents) ∧
    joinedTable exTrades exSents ≠ [] ∧
    (∀ r ∈ joinedTable exTrades exSents, r.closedPnl.isSome = true) ∧
    ((cumulativePnl (joinedTable exTrades exSents)).map Prod.snd).getLast? =
      some (some (totalPnl (joinedTable exTrades exSents))) :=
  ⟨⟨List.Perm.refl _, by decide⟩, by decide, by decide,
   c7_last_cumulative _ _ ⟨List.Perm.refl _, by decide⟩ (by decide) (by decide)⟩

/-- C8: the pipeline is deterministic. Every stage — loading with
fallback, date normalization, merging, each aggregate — is a clean
function of the two input files alone, and the sort is a deterministic
function too (numpy's quicksort, abstracted here as an arbitrary but
fixed implementation `sortImpl` that chooses a date-ascending
ordering, applied identically on both runs). Hence two runs on the
same two inputs agree on the joined table, the column list, and every
derived aggregate — the per-classification groupings and the
cumulative-PnL series included. -/
theorem c8_rerun_identical (sortImpl : List Row → List Row)
    (hsort : ∀ df : List Row, SortedByDate df (sortImpl df))
    (tradeFile₁ tradeFile₂ : Option (List RawTrade))
    (sentFile₁ sentFile₂ : Option (List RawSent))
    (htf : tradeFile₁ = tradeFile₂) (hsf : sentFile₁ = sentFile₂) :
    pipelineRunAll sortImpl tradeFile₁ sentFile₁ =
      pipelineRunAll sortImpl tradeFile₂ sentFile₂ ∧
    SortedByDate (loadJoined tradeFile₁ sentFile₁)
      (sortImpl (loadJoined tradeFile₁ sentFile₁)) := by
  subst htf
  subst hsf
  exact ⟨rfl, hsort _⟩

/-- C8 witness: two runs on the concrete example inputs, with the
concrete admissible sort `sortRowsModel`, agree on the joined table and
every aggregate including the cumulative-PnL series. -/
theorem c8_rerun_identical_witness :
    (∀ df : List Row, SortedByDate df (sortRowsModel df)) ∧
    (pipelineRunAll sortRowsModel (some exTrades) (some exSents) =
      pipelineRunAll sortRowsModel (some exTrades) (some exSents) ∧
     SortedByDate (loadJoined (some exTrades) (some exSents))
       (sortRowsModel (loadJoined (some exTrades) (some exSents)))) :=
  ⟨sortRowsModel_sorts,
   c8_rerun_identical sortRowsModel sortRowsModel_sorts
     (some exTrades) (some exTrades) (some exSents) (some exSents) rfl rfl⟩

/-- C9: a joined row's `Win` is 1 exactly when its `Closed PnL` is
present and strictly positive; a zero `Closed PnL` is not a win. -/
theorem c9_win_iff_positive (ts : List RawTrade) (ss : List RawSent)
    (r : Row) (hr : r ∈ joinedTable ts ss) :
    (r.win = 1 ↔ ∃ v : ℚ, r.closedPnl = some v ∧ 0 < v) ∧
    (r.closedPnl = some 0 → r.win = 0) := by
  obtain ⟨t', _, s', _, _, rfl⟩ := mem_mergeInner.mp hr
  have hwin : (mkRow t' s').win = winOf t'.closedPnl := rfl
  have hpnl : (mkRow t' s').closedPnl = t'.closedPnl := rfl
  rw [hwin, hpnl]
  constructor
  · cases hp : t'.closedPnl with
    | none => simp [winOf]
    | some v =>
      by_cases hv : 0 < v
      · constructor
        · intro _
          exact ⟨v, rfl, hv⟩
        · intro _
          simp [winOf, hv]
      · simp only [winOf, if_neg hv]
        constructor
        · intro h
          exact absurd h (by decide)
        · rintro ⟨v', hv', hpos⟩
          injection hv' with he
          exact absurd (he ▸ hpos) hv
  · intro h0
    rw [h0]
    simp [winOf]

/-- C9 witness: the first example joined row has positive PnL and
`Win = 1`. -/
theorem c9_win_iff_positive_witness :
    exRow1 ∈ joinedTable exTrades exSents ∧
    (exRow1.win = 1 ↔ ∃ v : ℚ, exRow1.closedPnl = some v ∧ 0 < v) ∧
    (exRow1.closedPnl = some 0 → exRow1.win = 0) :=
  ⟨by decide, (c9_win_iff_positive exTrades exSents exRow1 (by decide)).1,
   (c9_win_iff_positive exTrades exSents exRow1 (by decide)).2⟩

/-- C10: a joined row with a missing `Closed PnL` gets `Win = 0`, and
such a row is kept in the win-rate denominator as a loss: appending it
to a table with at least one win leaves the win numerator unchanged,
grows the row count by one, and strictly lowers the win rate. -/
theorem c10_missing_pnl_counts_as_loss :
    (∀ (ts : List RawTrade) (ss : List RawSent) (r : Row),
      r ∈ joinedTable ts ss → r.closedPnl = none → r.win = 0) ∧
    (∀ (df : List Row) (r : Row), r.win = 0 → 0 < winSum df →
      ∃ w w', winRate df = some w ∧ winRate (df ++ [r]) = some w' ∧ w' < w ∧
        winSum (df ++ [r]) = winSum df ∧
        tradeCount (df ++ [r]) = tradeCount df + 1) := by
  constructor
  · intro ts ss r hr hnone
    obtain ⟨t', _, s', _, _, rfl⟩ := mem_mergeInner.mp hr
    have ht : t'.closedPnl = none := hnone
    simp [mkRow, winOf, ht]
  · intro df r hrwin hpos
    have hdfne : df ≠ [] := by
      intro h
      rw [h] at hpos
      simp [winSum] at hpos
    have hlen : df.length ≠ 0 := by
      simpa [List.length_eq_zero] using hdfne
    have hlenpos : 0 < df.length := Nat.pos_of_ne_zero hlen
    refine ⟨(winSum df : ℚ) / (df.length : ℚ),
      (winSum df : ℚ) / ((df.length : ℚ) + 1), ?_, ?_, ?_, ?_, ?_⟩
    · simp [winRate, hlen]
    · rw [winRate, if_neg (by simp)]
      rw [winSum_append, hrwin]
      push_cast
      norm_num
    · apply div_lt_div_of_pos_left
      · exact_mod_cast hpos
      · exact_mod_cast hlenpos
      · exact lt_add_one _
    · rw [winSum_append, hrwin]
      omega
    · simp [tradeCount]

/-- C10 witness: the missing-PnL joined row `exRowNone` has `Win = 0`,
and appending it to the example table strictly lowers the win rate
while keeping it in the denominator. -/
theorem c10_missing_pnl_counts_as_loss_witness :
    exRowNone ∈ joinedTable exTradesNone exSents ∧
    exRowNone.closedPnl = none ∧ exRowNone.win = 0 ∧
    0 < winSum (joinedTable exTrades exSents) ∧
    ∃ w w', winRate (joinedTable exTrades exSents) = some w ∧
      winRate (joinedTable exTrades exSents ++ [exRowNone]) = some w' ∧ w' < w ∧
      winSum (joinedTable exTrades exSents ++ [exRowNone]) =
        winSum (joinedTable exTrades exSents) ∧
      tradeCount (joinedTable exTrades exSents ++ [exRowNone]) =
        tradeCount (joinedTable exTrades exSents) + 1 :=
  ⟨by decide, rfl,
   (c10_missing_pnl_counts_as_loss).1 exTradesNone exSents exRowNone (by decide) rfl,
   by decide,
   (c10_missing_pnl_counts_as_loss).2 (joinedTable exTrades exSents) exRowNone rfl
     (by decide)⟩

end TraderApp
